import Mathlib

/-!
Verification development for the Movement Formation & Scoring Engine.

The Python source is shallowly embedded into Lean:
* Python floats are modelled as exact rationals (`ℚ`); `round(x, nd)` is
  modelled by `pyround nd`, Python 3 round-half-to-even on the scaled value.
* `datetime` values are modelled by their timestamp (a rational number of
  days for score computations, an integer for the clustering rebuild where
  only ordering matters) or by their ISO string where the code only uses
  `isoformat()`.
* `hashlib.sha256(...).hexdigest()` is modelled by an executable SHA-256
  over the UTF-8 bytes of the input; inputs used in concrete theorems are
  ASCII, for which the byte encoding is the list of code points.
* Python dicts coming from the ORM rows are modelled as structures; absent
  keys are `Option` fields.
* The SQL store is modelled as explicit lists of rows; a commit appends the
  current in-memory state to the list of committed states where the claim
  is about transactional behaviour.
-/

set_option maxRecDepth 40000

/-! ### Python `round` (half-to-even) over `ℚ` -/

/-- Round-half-to-even of a rational to an integer, as Python's `round`. -/
def roundHalfEven (x : ℚ) : ℤ :=
  if x - ⌊x⌋ < 1/2 then ⌊x⌋
  else if 1/2 < x - ⌊x⌋ then ⌊x⌋ + 1
  else if ⌊x⌋ % 2 = 0 then ⌊x⌋ else ⌊x⌋ + 1

/-- Python's `round(x, ndigits)` on our rational model of floats. -/
def pyround (ndigits : ℕ) (x : ℚ) : ℚ :=
  (roundHalfEven (x * 10 ^ ndigits) : ℚ) / 10 ^ ndigits

theorem floor_le_roundHalfEven (x : ℚ) : ⌊x⌋ ≤ roundHalfEven x := by
  unfold roundHalfEven
  split_ifs <;> omega

theorem roundHalfEven_le_ceil (x : ℚ) : roundHalfEven x ≤ ⌈x⌉ := by
  unfold roundHalfEven
  have hfc : ⌊x⌋ ≤ ⌈x⌉ := Int.floor_le_ceil x
  split_ifs with h1 h2 h3
  · exact hfc
  all_goals
    have hx : (⌊x⌋ : ℚ) < x := by linarith
    have := Int.lt_ceil.mpr hx
    omega

theorem roundHalfEven_le_add_half (x : ℚ) : (roundHalfEven x : ℚ) ≤ x + 1/2 := by
  unfold roundHalfEven
  have h1 : (⌊x⌋ : ℚ) ≤ x := Int.floor_le x
  have h2 : x < (⌊x⌋ : ℚ) + 1 := Int.lt_floor_add_one x
  split_ifs <;> push_cast <;> linarith

theorem sub_half_le_roundHalfEven (x : ℚ) : x - 1/2 ≤ (roundHalfEven x : ℚ) := by
  unfold roundHalfEven
  have h1 : (⌊x⌋ : ℚ) ≤ x := Int.floor_le x
  have h2 : x < (⌊x⌋ : ℚ) + 1 := Int.lt_floor_add_one x
  split_ifs <;> push_cast <;> linarith

theorem pyround_le_of_le_intCast (nd : ℕ) (x : ℚ) (m : ℤ) (h : x ≤ (m : ℚ)) :
    pyround nd x ≤ (m : ℚ) := by
  unfold pyround
  have hp : (0:ℚ) < 10 ^ nd := by positivity
  rw [div_le_iff hp]
  have hc : ⌈x * 10 ^ nd⌉ ≤ m * 10 ^ nd := by
    apply Int.ceil_le.mpr
    push_cast
    calc x * 10 ^ nd ≤ (m : ℚ) * 10 ^ nd := by
          exact mul_le_mul_of_nonneg_right h (le_of_lt hp)
      _ = _ := by ring
  calc (roundHalfEven (x * 10 ^ nd) : ℚ) ≤ (⌈x * 10 ^ nd⌉ : ℚ) := by
        exact_mod_cast roundHalfEven_le_ceil _
    _ ≤ ((m * 10 ^ nd : ℤ) : ℚ) := by exact_mod_cast hc
    _ = (m : ℚ) * 10 ^ nd := by push_cast; ring

theorem intCast_le_pyround_of_le (nd : ℕ) (x : ℚ) (m : ℤ) (h : (m : ℚ) ≤ x) :
    (m : ℚ) ≤ pyround nd x := by
  unfold pyround
  have hp : (0:ℚ) < 10 ^ nd := by positivity
  rw [le_div_iff hp]
  have hc : m * 10 ^ nd ≤ ⌊x * 10 ^ nd⌋ := by
    apply Int.le_floor.mpr
    push_cast
    calc ((m : ℚ)) * 10 ^ nd ≤ x * 10 ^ nd := by
          exact mul_le_mul_of_nonneg_right h (le_of_lt hp)
      _ = _ := by ring
  calc (m : ℚ) * 10 ^ nd = ((m * 10 ^ nd : ℤ) : ℚ) := by push_cast; ring
    _ ≤ (⌊x * 10 ^ nd⌋ : ℚ) := by exact_mod_cast hc
    _ ≤ (roundHalfEven (x * 10 ^ nd) : ℚ) := by exact_mod_cast floor_le_roundHalfEven _

theorem pyround_le_add (nd : ℕ) (x : ℚ) :
    pyround nd x ≤ x + 1 / (2 * 10 ^ nd) := by
  unfold pyround
  have hp : (0:ℚ) < 10 ^ nd := by positivity
  rw [div_le_iff hp]
  have := roundHalfEven_le_add_half (x * 10 ^ nd)
  calc (roundHalfEven (x * 10 ^ nd) : ℚ) ≤ x * 10 ^ nd + 1/2 := this
    _ = (x + 1 / (2 * 10 ^ nd)) * 10 ^ nd := by field_simp; ring

theorem sub_le_pyround (nd : ℕ) (x : ℚ) :
    x - 1 / (2 * 10 ^ nd) ≤ pyround nd x := by
  unfold pyround
  have hp : (0:ℚ) < 10 ^ nd := by positivity
  rw [le_div_iff hp]
  have := sub_half_le_roundHalfEven (x * 10 ^ nd)
  calc (x - 1 / (2 * 10 ^ nd)) * 10 ^ nd = x * 10 ^ nd - 1/2 := by field_simp; ring
    _ ≤ (roundHalfEven (x * 10 ^ nd) : ℚ) := this

/-! ### Stable descending insertion sort (the model of Python's
`sorted(..., key=..., reverse=True)`, which is a stable sort) -/

def insertDesc {α β : Type} [LinearOrder β] (key : α → β) (x : α) : List α → List α
  | [] => [x]
  | y :: ys => if key y ≤ key x then x :: y :: ys else y :: insertDesc key x ys

def sortByDesc {α β : Type} [LinearOrder β] (key : α → β) : List α → List α
  | [] => []
  | x :: xs => insertDesc key x (sortByDesc key xs)

theorem mem_insertDesc {α β : Type} [LinearOrder β] (key : α → β) (x b : α) (l : List α) :
    b ∈ insertDesc key x l ↔ b = x ∨ b ∈ l := by
  induction l with
  | nil => simp [insertDesc]
  | cons y ys ih =>
    by_cases hc : key y ≤ key x
    · simp [insertDesc, if_pos hc]
    · simp only [insertDesc, if_neg hc, List.mem_cons, ih]
      tauto

theorem sorted_insertDesc {α β : Type} [LinearOrder β] (key : α → β) (x : α) (l : List α)
    (h : l.Pairwise (fun a b => key b ≤ key a)) :
    (insertDesc key x l).Pairwise (fun a b => key b ≤ key a) := by
  induction l with
  | nil => simp [insertDesc]
  | cons y ys ih =>
    rcases List.pairwise_cons.mp h with ⟨hy, hys⟩
    by_cases hc : key y ≤ key x
    · simp only [insertDesc, if_pos hc]
      refine List.pairwise_cons.mpr ⟨?_, h⟩
      intro b hb
      rcases List.mem_cons.mp hb with rfl | hb
      · exact hc
      · exact le_trans (hy b hb) hc
    · simp only [insertDesc, if_neg hc]
      refine List.pairwise_cons.mpr ⟨?_, ih hys⟩
      intro b hb
      rcases (mem_insertDesc key x b ys).mp hb with rfl | hb
      · exact le_of_lt (lt_of_not_le hc)
      · exact hy b hb

theorem sorted_sortByDesc {α β : Type} [LinearOrder β] (key : α → β) (l : List α) :
    (sortByDesc key l).Pairwise (fun a b => key b ≤ key a) := by
  induction l with
  | nil => simp [sortByDesc]
  | cons x xs ih => exact sorted_insertDesc key x _ ih

/-! ### SHA-256 (the model of `hashlib.sha256(...).hexdigest()`) -/

def M32 : ℕ := 4294967296

def rotr (n x : ℕ) : ℕ := (x >>> n) ||| ((x % (1 <<< n)) <<< (32 - n))

def bnot32 (x : ℕ) : ℕ := 4294967295 ^^^ x

def bigS0 (x : ℕ) : ℕ := rotr 2 x ^^^ rotr 13 x ^^^ rotr 22 x
def bigS1 (x : ℕ) : ℕ := rotr 6 x ^^^ rotr 11 x ^^^ rotr 25 x
def smallS0 (x : ℕ) : ℕ := rotr 7 x ^^^ rotr 18 x ^^^ (x >>> 3)
def smallS1 (x : ℕ) : ℕ := rotr 17 x ^^^ rotr 19 x ^^^ (x >>> 10)
def chF (e f g : ℕ) : ℕ := (e &&& f) ^^^ (bnot32 e &&& g)
def majF (a b c : ℕ) : ℕ := (a &&& b) ^^^ (a &&& c) ^^^ (b &&& c)

def shaK : List ℕ :=
  [1116352408, 1899447441, 3049323471, 3921009573, 961987163, 1508970993,
   2453635748, 2870763221, 3624381080, 310598401, 607225278, 1426881987,
   1925078388, 2162078206, 2614888103, 3248222580, 3835390401, 4022224774,
   264347078, 604807628, 770255983, 1249150122, 1555081692, 1996064986,
   2554220882, 2821834349, 2952996808, 3210313671, 3336571891, 3584528711,
   113926993, 338241895, 666307205, 773529912, 1294757372, 1396182291,
   1695183700, 1986661051, 2177026350, 2456956037, 2730485921, 2820302411,
   3259730800, 3345764771, 3516065817, 3600352804, 4094571909, 275423344,
   430227734, 506948616, 659060556, 883997877, 958139571, 1322822218,
   1537002063, 1747873779, 1955562222, 2024104815, 2227730452, 2361852424,
   2428436474, 2756734187, 3204031479, 3329325298]

structure H8 where
  a : ℕ
  b : ℕ
  c : ℕ
  d : ℕ
  e : ℕ
  f : ℕ
  g : ℕ
  h : ℕ

def shaH0 : H8 :=
  ⟨1779033703, 3144134277, 1013904242, 2773480762, 1359893119, 2600822924, 528734635, 1541459225⟩

def schedExtend : List ℕ → ℕ → List ℕ
  | w, 0 => w
  | w, k+1 =>
    let t := w.length
    let nw := (smallS1 (w.getD (t-2) 0) + w.getD (t-7) 0 +
               smallS0 (w.getD (t-15) 0) + w.getD (t-16) 0) % M32
    schedExtend (w ++ [nw]) k

def compressStep (st : H8) (kw : ℕ × ℕ) : H8 :=
  let t1 := (st.h + bigS1 st.e + chF st.e st.f st.g + kw.1 + kw.2) % M32
  let t2 := (bigS0 st.a + majF st.a st.b st.c) % M32
  ⟨(t1 + t2) % M32, st.a, st.b, st.c, (st.d + t1) % M32, st.e, st.f, st.g⟩

def compressBlock (h0 : H8) (w16 : List ℕ) : H8 :=
  let w := schedExtend w16 48
  let st := (shaK.zip w).foldl compressStep h0
  ⟨(h0.a + st.a) % M32, (h0.b + st.b) % M32, (h0.c + st.c) % M32, (h0.d + st.d) % M32,
   (h0.e + st.e) % M32, (h0.f + st.f) % M32, (h0.g + st.g) % M32, (h0.h + st.h) % M32⟩

def be64 (n : ℕ) : List ℕ :=
  [(n >>> 56) % 256, (n >>> 48) % 256, (n >>> 40) % 256, (n >>> 32) % 256,
   (n >>> 24) % 256, (n >>> 16) % 256, (n >>> 8) % 256, n % 256]

def padBytes (msg : List ℕ) : List ℕ :=
  let L := msg.length
  let z := (64 - ((L + 9) % 64)) % 64
  msg ++ [128] ++ List.replicate z 0 ++ be64 (8 * L)

def toWords : List ℕ → List ℕ
  | b0 :: b1 :: b2 :: b3 :: rest => ((b0 <<< 24) + (b1 <<< 16) + (b2 <<< 8) + b3) :: toWords rest
  | _ => []

def toBlocksAux : ℕ → List ℕ → List (List ℕ)
  | 0, _ => []
  | _, [] => []
  | fuel+1, l => toWords (l.take 64) :: toBlocksAux fuel (l.drop 64)

def sha256words (msg : List ℕ) : H8 :=
  let padded := padBytes msg
  (toBlocksAux padded.length padded).foldl compressBlock shaH0

def hexChar (n : ℕ) : Char := if n < 10 then Char.ofNat (48 + n) else Char.ofNat (87 + n)

def wordHex (w : ℕ) : List Char :=
  [hexChar ((w >>> 28) % 16), hexChar ((w >>> 24) % 16), hexChar ((w >>> 20) % 16),
   hexChar ((w >>> 16) % 16), hexChar ((w >>> 12) % 16), hexChar ((w >>> 8) % 16),
   hexChar ((w >>> 4) % 16), hexChar (w % 16)]

def sha256hexBytes (msg : List ℕ) : String :=
  let h := sha256words msg
  ⟨wordHex h.a ++ wordHex h.b ++ wordHex h.c ++ wordHex h.d ++
   wordHex h.e ++ wordHex h.f ++ wordHex h.g ++ wordHex h.h⟩

/-- UTF-8 bytes of a string; equal to the code points for ASCII input, which
covers every concrete input used in this development. -/
def strBytes (s : String) : List ℕ := s.data.map Char.toNat

def sha256hex (s : String) : String := sha256hexBytes (strBytes s)

/-- FIPS 180-4 test vector, keeping the SHA-256 model honest. -/
theorem sha256hex_abc :
    sha256hex "abc" = "ba7816bf8f01cfea414140de5dae2223b00361a396177a9cb410ff61f20015ad" := by
  decide

/-! ### Small string helpers mirroring Python `str` methods -/

def lowerStr (s : String) : String := ⟨s.data.map Char.toLower⟩

def isSpaceChar (c : Char) : Bool := c = ' ' ∨ c = '\t' ∨ c = '\n' ∨ c = '\r'

/-- Python's `str.strip()` (for the ASCII whitespace actually occurring). -/
def stripStr (s : String) : String :=
  ⟨((s.data.dropWhile isSpaceChar).reverse.dropWhile isSpaceChar).reverse⟩

/-- Python's `s[:n]`. -/
def takeStr (n : ℕ) (s : String) : String := ⟨s.data.take n⟩

def startsWithL : List Char → List Char → Bool
  | [], _ => true
  | _ :: _, [] => false
  | a :: as, b :: bs => a = b && startsWithL as bs

def isSubListOf : List Char → List Char → Bool
  | needle, [] => needle.isEmpty
  | needle, h :: t => startsWithL needle (h :: t) || isSubListOf needle t

/-- Python's `needle in hay` on strings. -/
def containsStr (hay needle : String) : Bool := isSubListOf needle.data hay.data

/-! ### `engine/dedup.py` -/

/-- `canonical_uid` from `engine/dedup.py`: SHA-256 of
`source_name + "|" + url.strip() + "|" + title.strip() + "|" + date_iso`,
hex digest truncated to 32 characters. -/
def canonical_uid (source_name url title date_iso : String) : String :=
  takeStr 32 (sha256hex (source_name ++ "|" ++ stripStr url ++ "|" ++ stripStr title ++ "|" ++ date_iso))

/-- A raw record as fed to `dedup_items` / `upsert_events`; absent dict keys
are `none`.  The record's `date` is carried as its `isoformat()` string,
which is how `dedup_items` consumes it. -/
structure RawItem where
  event_uid : Option String
  source_name : Option String
  source_tier : Option ℤ
  signal_type : Option String
  url : Option String
  title : Option String
  summary : Option String
  raw_text : Option String
  date_iso : Option String
deriving DecidableEq

/-- The uid `dedup_items` assigns to a record: the record's own `event_uid`
if present and truthy (non-empty), else `canonical_uid` over its fields,
with `""` for the date when no date is present. -/
def dedupUid (it : RawItem) : String :=
  let canon := canonical_uid (it.source_name.getD "") (it.url.getD "") (it.title.getD "")
    (match it.date_iso with | some d => d | none => "")
  match it.event_uid with
  | some u => if u = "" then canon else u
  | none => canon

def dedupGo : List String → List RawItem → List RawItem
  | _, [] => []
  | seen, it :: rest =>
    let uid := dedupUid it
    if uid ∈ seen then dedupGo seen rest
    else { it with event_uid := some uid } :: dedupGo (uid :: seen) rest

/-- `dedup_items` from `engine/dedup.py`. -/
def dedup_items (items : List RawItem) : List RawItem := dedupGo [] items

/-! ### `engine/score.py` -/

/-- The slice of an `Event` row that `cli.build` passes to the scoring
functions (`signal_type`, `source_tier`, `date`, `url`, and the
`source_name` used by `compute_confidence`).  `date` is the timestamp as a
rational number of days. -/
structure EventRec where
  signal_type : Option String
  source_name : Option String
  source_tier : Option ℤ
  date : Option ℚ
  url : Option String

structure BucketCounts where
  research : ℕ
  capital : ℕ
  reg : ℕ
  infra : ℕ
  cross : ℕ
deriving DecidableEq

def signalOf (e : EventRec) : String := lowerStr (e.signal_type.getD "")

def bucketStep (b : BucketCounts) (e : EventRec) : BucketCounts :=
  let st := signalOf e
  if st = "research" ∨ st = "research_standards" then
    { b with research := b.research + 1 }
  else if st = "capital" ∨ st = "capital_flows_markets" ∨ st = "markets" then
    { b with capital := b.capital + 1 }
  else if st = "regulatory" ∨ st = "regulatory_policy" ∨ st = "policy" then
    { b with reg := b.reg + 1 }
  else if st = "infra" ∨ st = "technology" ∨ st = "technology_ai_infra" ∨
          st = "cyber" ∨ st = "cyber_fraud_resilience" then
    { b with infra := b.infra + 1 }
  else
    { b with cross := b.cross + 1 }

def bucketCounts (events : List EventRec) : BucketCounts :=
  events.foldl bucketStep ⟨0, 0, 0, 0, 0⟩

structure Components where
  research_momentum : ℚ
  capital_momentum : ℚ
  reg_momentum : ℚ
  infra_deploy : ℚ
  cross_adoption : ℚ

/-- `compute_component_scores`: share-based 0..100 components, with
`n = len(events) or 1`. -/
def compute_component_scores (events : List EventRec) : Components :=
  let n : ℚ := (events.length.max 1 : ℕ)
  let b := bucketCounts events
  ⟨pyround 2 (100 * (b.research / n)), pyround 2 (100 * (b.capital / n)),
   pyround 2 (100 * (b.reg / n)), pyround 2 (100 * (b.infra / n)),
   pyround 2 (100 * (b.cross / n))⟩

/-- `compute_impact`: fixed-weight sum of the five components, rounded. -/
def compute_impact (c : Components) : ℚ :=
  pyround 2 (0.20 * c.research_momentum + 0.25 * c.capital_momentum +
             0.25 * c.reg_momentum + 0.20 * c.infra_deploy + 0.10 * c.cross_adoption)

/-- `int(e.get("source_tier") or 3)`: `None` and the falsy `0` become 3. -/
def tierOf (e : EventRec) : ℤ :=
  match e.source_tier with
  | none => 3
  | some t => if t = 0 then 3 else t

def srcNameOf (e : EventRec) : String := e.source_name.getD ""

/-- Number of distinct non-empty source names (the `sources` set). -/
def uniqueSources (events : List EventRec) : ℕ :=
  (((events.map srcNameOf).filter (fun s => ¬ s = "")).dedup).length

/-- `compute_confidence` from `engine/score.py`, returning the rounded
score and the label (the audit meta dict is not modelled). -/
def compute_confidence (events : List EventRec) : ℚ × String :=
  let n := events.length
  let tier1 := (events.filter (fun e => tierOf e = 1)).length
  let src_div : ℚ := min 1 ((uniqueSources events : ℚ) / 6)
  let tier1_share : ℚ := if n = 0 then 0 else (tier1 : ℚ) / n
  let vol : ℚ := min 1 ((n : ℚ) / 25)
  let conf := pyround 2 (100 * (0.45 * src_div + 0.40 * tier1_share + 0.15 * vol))
  let label := if conf ≥ 70 then "high" else if conf ≥ 45 then "medium" else "low"
  (conf, label)

/-- The `BaselineCounts` value produced by `engine/baseline.py`. -/
structure BaselineCounts where
  recent_90 : ℕ
  baseline_90 : ℚ

/-- `compute_acceleration` from `engine/score.py`: `now` stands for
`datetime.utcnow()`; `recent_90` is recounted from the event dates and the
baseline is taken from the `BaselineCounts` argument. -/
def compute_acceleration (now : ℚ) (events : List EventRec) (baseline90 : BaselineCounts) : ℚ × String :=
  let cutoff_90 := now - 90
  let recent_90 := (events.filter (fun e =>
    match e.date with
    | some d => decide (cutoff_90 ≤ d)
    | none => false)).length
  let baseline_90 := baseline90.baseline_90
  let r := ((recent_90 : ℚ) + 1) / (baseline_90 + 1)
  let arrow := if r ≥ 1.35 then "↑" else if r ≤ 0.75 then "↓" else "→"
  let accel_raw := max 0 (min 100 (50 + 25 * (r - 1)))
  (pyround 2 accel_raw, arrow)

/-- `stabilize_with_persistence` from `engine/score.py`. -/
def stabilize_with_persistence (impact persistence : ℚ) : ℚ :=
  let p := max 0 (min 1 persistence)
  pyround 2 (0.65 * impact + 0.35 * impact * (0.5 + 0.5 * p))

/-! ### `engine/themes.py` -/

/-- The movement dict `cli.build`/`cli.snapshot` hand to `aggregate_themes`. -/
structure MovementRow where
  id : ℕ
  theme : String
  stabilized_impact : ℚ
  confidence_score : ℚ
  acceleration_arrow : String

structure ThemeOut where
  theme : String
  theme_score : ℚ
  confidence_label : String
  acceleration_arrow : String
  top_movements : List ℕ

/-- Average of `stabilized_impact` with the empty-group convention. -/
def avgStabilized (xs : List MovementRow) : ℚ :=
  if xs.isEmpty then 0 else (xs.map (fun x => x.stabilized_impact)).sum / xs.length

def arrowOrder : List String := ["↑↑", "↑", "→", "↓"]

def arrowCount (arrows : List String) (a : String) : ℕ :=
  (arrows.filter (fun x => x = a)).length

def arrowBetter (arrows : List String) (a b : String) : Bool :=
  arrowCount arrows b < arrowCount arrows a ∨
    (arrowCount arrows b = arrowCount arrows a ∧ arrowOrder.indexOf a < arrowOrder.indexOf b)

/-- The arrow `aggregate_themes` picks: the most frequent arrow among the
top-5 movements, ties broken by the fixed `arrow_order` priority.  (The
keys `(-count, order-index)` are distinct across distinct arrows, so the
choice is independent of Python's set iteration order.) -/
def pickArrow (arrows0 : List String) : String :=
  let arrows := if arrows0 = [] then ["→"] else arrows0
  let distinct := arrows.foldl (fun acc a => if a ∈ acc then acc else acc ++ [a]) []
  match distinct with
  | [] => "→"
  | d :: ds => ds.foldl (fun best a => if arrowBetter arrows a best then a else best) d

/-- The per-theme row built inside the `aggregate_themes` loop. -/
def themeRow (theme : String) (ms : List MovementRow) : ThemeOut :=
  let ms_sorted := sortByDesc (fun x => x.stabilized_impact) ms
  let top3 := ms_sorted.take 3
  let next7 := (ms_sorted.drop 3).take 7
  let theme_score := 0.6 * avgStabilized top3 + 0.4 * avgStabilized next7
  let top5 := ms_sorted.take 5
  let c : ℚ :=
    if top5.isEmpty then 0
    else
      let wsum := (top5.map (fun x => x.stabilized_impact)).sum
      (top5.map (fun x => x.confidence_score * x.stabilized_impact)).sum /
        (if wsum = 0 then 1 else wsum)
  let conf_label := if c ≥ 0.70 then "High" else if c ≥ 0.45 then "Medium" else "Low"
  let arrow := pickArrow (top5.map (fun x => x.acceleration_arrow))
  ⟨theme, pyround 2 theme_score, conf_label, arrow, (ms_sorted.take 10).map (fun x => x.id)⟩

/-- `aggregate_themes` from `engine/themes.py`: group by theme (first-seen
order, as `defaultdict` iteration), build each theme row, sort the output
by `theme_score` descending. -/
def aggregate_themes (movements : List MovementRow) : List ThemeOut :=
  let keys := movements.foldl (fun acc m => if m.theme ∈ acc then acc else acc ++ [m.theme]) []
  let out := keys.map (fun th => themeRow th (movements.filter (fun m => m.theme = th)))
  sortByDesc (fun t => t.theme_score) out

/-! ### `engine/cluster.py` -/

/-- Lexicographic code-point comparison, as Python string `<=`. -/
def charListLe : List Char → List Char → Bool
  | [], _ => true
  | _ :: _, [] => false
  | a :: as, b :: bs => if a < b then true else if b < a then false else charListLe as bs

def strLe (a b : String) : Bool := charListLe a.data b.data

def insertAscStr (x : String) : List String → List String
  | [] => [x]
  | y :: ys => if strLe x y then x :: y :: ys else y :: insertAscStr x ys

/-- Python's `sorted` on a list of strings (ascending, stable). -/
def sortByStrAsc : List String → List String
  | [] => []
  | x :: xs => insertAscStr x (sortByStrAsc xs)

/-- `movement_uid_from_event_uids`: SHA-256 of the first 10 sorted event
uids joined by `|`, hex digest truncated to 24 characters. -/
def movement_uid_from_event_uids (event_uids : List String) : String :=
  let core := String.intercalate "|" ((sortByStrAsc event_uids).take 10)
  takeStr 24 (sha256hex core)

/-- `simple_theme_hint` from `engine/cluster.py`: first keyword set that
matches the lowercased text wins; default theme if none match. -/
def simple_theme_hint (text : String) : String :=
  let t := lowerStr text
  if (["deposit", "stablecoin", "cbdc", "tokenized deposit", "programmable money"].any
      fun x => containsStr t x) then "Money & Deposit Architecture"
  else if (["settlement", "clearing", "dtcc", "euroclear", "collateral", "repo"].any
      fun x => containsStr t x) then "Market Infrastructure & Settlement"
  else if (["core banking", "ledger", "banking platform", "mainframe", "modernization"].any
      fun x => containsStr t x) then "Core Banking Architecture"
  else if (["wealth", "custody", "asset servicing", "private markets", "tokenization of funds"].any
      fun x => containsStr t x) then "Wealth & Asset Servicing"
  else if (["capital", "liquidity", "risk model", "credit", "stress test"].any
      fun x => containsStr t x) then "Balance Sheet & Risk Architecture"
  else if (["zero-knowledge", "zkp", "mpc", "homomorphic", "post-quantum", "pqc", "privacy"].any
      fun x => containsStr t x) then "Identity, Privacy & Cryptography"
  else if (["agent", "autonomous", "agentic", "multi-agent"].any
      fun x => containsStr t x) then "Autonomous & Agentic Systems"
  else if (["regulation", "consultation", "ecb", "bis", "eba", "mas", "framework", "guidance"].any
      fun x => containsStr t x) then "Regulatory & Monetary Shifts"
  else "Regulatory & Monetary Shifts"

/-- An `Event` row as read by `build_movements` (date as integer timestamp;
only its ordering is used). -/
structure DbEvent where
  event_uid : String
  title : String
  summary : String
  date : ℤ
deriving DecidableEq

/-- A `Movement` row as created by `build_movements` (timestamps and the
constant `audit_json="{}"` omitted). -/
structure MovementRec where
  movement_uid : String
  name : String
  theme : String
deriving DecidableEq

/-- The Movement/link tables of the store; links carry
`(movement_uid, event_uid)` in place of the surrogate integer ids. -/
structure ClusterStore where
  movements : List MovementRec
  links : List (String × String)
deriving DecidableEq

/-- `clusters.setdefault(lab, []).append(idx)` over `enumerate(labels)`:
association list from label to indices, keyed in first-seen order. -/
def clusterGroups (labels : List ℕ) : List (ℕ × List ℕ) :=
  (labels.enum.map (fun p => (p.2, p.1))).foldl
    (fun acc p =>
      if acc.any (fun q => q.1 = p.1) then
        acc.map (fun q => if q.1 = p.1 then (q.1, q.2 ++ [p.2]) else q)
      else acc ++ [(p.1, [p.2])])
    []

/-- The body of the per-cluster loop in `build_movements`: construct the
`Movement`, commit, add its links, commit. -/
def clusterStep (events : List DbEvent) (acc : ClusterStore × List ClusterStore × ℕ)
    (grp : ℕ × List ℕ) : ClusterStore × List ClusterStore × ℕ :=
  let (s, commits, created) := acc
  let evs := grp.2.filterMap (fun i => events.get? i)
  let ev_uids := evs.map (fun e => e.event_uid)
  let uid := movement_uid_from_event_uids ev_uids
  let evs_sorted := sortByDesc (fun e => e.date) evs
  let name := match evs_sorted.head? with
    | some e0 => takeStr 120 e0.title
    | none => "Movement " ++ toString grp.1
  let theme := simple_theme_hint (String.intercalate " " ((evs_sorted.take 5).map (fun e => e.title)))
  let m : MovementRec := ⟨uid, name, theme⟩
  let s1 : ClusterStore := { s with movements := s.movements ++ [m] }
  let s2 : ClusterStore := { s1 with links := s1.links ++ evs.map (fun e => (uid, e.event_uid)) }
  (s2, commits ++ [s1, s2], created + 1)

/-- `build_movements` from `engine/cluster.py`, embedded as its sequence of
committed store states.  The clustering labels come from the external
`AgglomerativeClustering` (via `cluster_embeddings`) and are a parameter.
Returns the list of committed states, in order, and the created count.
The first commit (after `delete(MovementEventLink); delete(Movement)`) is
the empty store; each loop iteration then commits twice. -/
def build_movements (events : List DbEvent) (labels : List ℕ) (_s0 : ClusterStore) :
    List ClusterStore × ℕ :=
  if events = [] then ([], 0)
  else
    let afterDelete : ClusterStore := ⟨[], []⟩
    let r := (clusterGroups labels).foldl (clusterStep events) (afterDelete, [afterDelete], 0)
    (r.2.1, r.2.2)

/-! ### `engine/ingest.py` -/

/-- An `Event` table row as inserted by `upsert_events`. -/
structure EventRow where
  event_uid : String
  source_name : String
  source_tier : ℤ
  signal_type : String
  title : String
  summary : String
  url : String
  raw_text : Option String
deriving DecidableEq

/-- The Event store: the `Event` table plus the `EventSourceRef` table
(refs keyed by the inserted event's uid in place of its surrogate id). -/
structure EventStore where
  events : List EventRow
  refs : List String
deriving DecidableEq

def storeUids (s : EventStore) : List String := s.events.map (fun e => e.event_uid)

/-- `it["event_uid"]` as read by `upsert_events` (always set after
`dedup_items`). -/
def itemUid (it : RawItem) : String := it.event_uid.getD ""

def toEventRow (it : RawItem) : EventRow :=
  ⟨itemUid it, it.source_name.getD "", it.source_tier.getD 3, it.signal_type.getD "",
   it.title.getD "", it.summary.getD "", it.url.getD "", it.raw_text⟩

/-- One iteration of the per-batch loop in `upsert_events`: prefetch the
uids already present, insert the batch items whose uid is absent (plus
their source refs), and add to the inserted count. -/
def upsertBatch (acc : EventStore × ℕ) (batch : List RawItem) : EventStore × ℕ :=
  let (s, inserted_total) := acc
  let uids := batch.map itemUid
  let existing := (storeUids s).filter (fun u => u ∈ uids)
  let newItems := batch.filter (fun it => ¬ itemUid it ∈ existing)
  if newItems.isEmpty then (s, inserted_total)
  else
    ({ events := s.events ++ newItems.map toEventRow,
       refs := s.refs ++ newItems.map itemUid },
     inserted_total + newItems.length)

def chunkedAux : ℕ → List RawItem → List (List RawItem)
  | 0, _ => []
  | _, [] => []
  | fuel + 1, l => l.take 250 :: chunkedAux fuel (l.drop 250)

/-- `_chunked(seq, 250)` (the default `batch_size`). -/
def chunked250 (l : List RawItem) : List (List RawItem) := chunkedAux l.length l

/-- `upsert_events` from `engine/ingest.py` over the modelled store;
returns the new store and `inserted_total`. -/
def upsert_events (items : List RawItem) (store : EventStore) : EventStore × ℕ :=
  if items.isEmpty then (store, 0)
  else (chunked250 items).foldl upsertBatch (store, 0)

/-! ### `engine/snapshot.py` -/

def quarter_of_month (month : ℕ) : ℕ := (month - 1) / 3 + 1

/-- `quarter_id_for` from `engine/snapshot.py`. -/
def quarter_id_for (year month : ℕ) : String :=
  toString year ++ "Q" ++ toString (quarter_of_month month)

structure TextSnapshotRow where
  quarter_id : String
  executive_summary : String
  discussion_topics : String
deriving DecidableEq

structure ThemeSnapshotRow where
  quarter_id : String
  theme : String
  theme_score : ℚ
  confidence_label : String
  acceleration_arrow : String
  top_movement_ids : String

/-- A current `Movement` row as read by `create_snapshot`. -/
structure MovementDbRow where
  id : ℕ
  theme : String
  impact_score : ℚ
  stabilized_impact : ℚ
  confidence_label : String
  acceleration_arrow : String
  persistence : ℚ

structure MovementSnapshotRow where
  quarter_id : String
  movement_id : ℕ
  theme : String
  impact_score : ℚ
  stabilized_impact : ℚ
  confidence_label : String
  acceleration_arrow : String
  persistence : ℚ

structure SnapStore where
  texts : List TextSnapshotRow
  themes : List ThemeSnapshotRow
  movs : List MovementSnapshotRow

/-- The TextSnapshot upsert: update the first row with the quarter id
(`...first()`), else insert a new row. -/
def upsertText (qid es ds : String) : List TextSnapshotRow → List TextSnapshotRow
  | [] => [⟨qid, es, ds⟩]
  | t :: ts =>
    if t.quarter_id = qid then { t with executive_summary := es, discussion_topics := ds } :: ts
    else t :: upsertText qid es ds ts

def themeSnapRow (qid : String) (t : ThemeOut) : ThemeSnapshotRow :=
  ⟨qid, t.theme, t.theme_score, t.confidence_label, t.acceleration_arrow,
   String.intercalate "," ((t.top_movements.take 10).map toString)⟩

def movSnapRow (qid : String) (m : MovementDbRow) : MovementSnapshotRow :=
  ⟨qid, m.id, m.theme, m.impact_score, m.stabilized_impact, m.confidence_label,
   m.acceleration_arrow, m.persistence⟩

/-- `create_snapshot` from `engine/snapshot.py`: upsert the quarter's
`TextSnapshot`, append one `ThemeSnapshot` row per theme and one
`MovementSnapshot` row per current movement; `(year, month)` stand for
`datetime.utcnow()`.  Returns the new store and the quarter id. -/
def create_snapshot (year month : ℕ) (themes : List ThemeOut)
    (executive_summary discussion_topics : String)
    (movements : List MovementDbRow) (store : SnapStore) : SnapStore × String :=
  let qid := quarter_id_for year month
  ({ texts := upsertText qid executive_summary discussion_topics store.texts,
     themes := store.themes ++ themes.map (themeSnapRow qid),
     movs := store.movs ++ movements.map (movSnapRow qid) }, qid)

/-! ### The per-movement scoring pass of `cli.build` -/

/-- The score fields `cli.build` writes to a movement.  `history` is the
movement's impact-score history (`movement_history_impacts`); `baseline90`
is the `BaselineCounts` for the movement; `now` stands for
`datetime.utcnow()`. -/
structure MovementScores where
  research_momentum : ℚ
  capital_momentum : ℚ
  reg_momentum : ℚ
  infra_deploy : ℚ
  cross_adoption : ℚ
  impact_score : ℚ
  stabilized_impact : ℚ
  confidence_score : ℚ
  confidence_label : String
  accel_raw : ℚ
  acceleration_arrow : String
  persistence : ℚ

/-- The body of the scoring loop in `cli.build` (lines 133-161), for one
movement with linked events `events`. -/
def score_movement (now : ℚ) (events : List EventRec) (baseline90 : BaselineCounts)
    (history : List ℚ) : MovementScores :=
  let components := compute_component_scores events
  let impact := compute_impact components
  let conf := compute_confidence events
  let accel := compute_acceleration now events baseline90
  let persistence : ℚ :=
    if history.isEmpty then 0
    else (((history.drop (history.length - 4)).filter (fun x => decide (50 ≤ x))).length : ℚ) / 4
  let stabilized := stabilize_with_persistence impact persistence
  ⟨components.research_momentum, components.capital_momentum, components.reg_momentum,
   components.infra_deploy, components.cross_adoption, impact, stabilized,
   conf.1, conf.2, accel.1, accel.2, pyround 3 persistence⟩

/-! ## Claims -/

/-- Claim C10: `stabilize_with_persistence` first clamps its persistence
argument into `[0,1]`; hence for every `impact ≥ 0` and every persistence
input the result lies between `0.825 * impact` and `impact`, up to the
2-decimal rounding slack of `1/200`, so stabilization never raises an
impact score beyond that rounding slack. -/
theorem c10_stabilize_never_raises (impact persistence : ℚ) (h : 0 ≤ impact) :
    0.825 * impact - 1/200 ≤ stabilize_with_persistence impact persistence ∧
    stabilize_with_persistence impact persistence ≤ impact + 1/200 := by
  unfold stabilize_with_persistence
  set p := max 0 (min 1 persistence) with hpdef
  have hp0 : 0 ≤ p := le_max_left _ _
  have hp1 : p ≤ 1 := max_le (by norm_num) (min_le_left _ _)
  have hlow : 0.825 * impact ≤ 0.65 * impact + 0.35 * impact * (0.5 + 0.5 * p) := by nlinarith
  have hhigh : 0.65 * impact + 0.35 * impact * (0.5 + 0.5 * p) ≤ impact := by nlinarith
  have hL := sub_le_pyround 2 (0.65 * impact + 0.35 * impact * (0.5 + 0.5 * p))
  have hR := pyround_le_add 2 (0.65 * impact + 0.35 * impact * (0.5 + 0.5 * p))
  have hq : (1 : ℚ) / (2 * 10 ^ 2) = 1/200 := by norm_num
  rw [hq] at hL hR
  exact ⟨by linarith, by linarith⟩

/-- Witness for C10 at `impact = 80`, `persistence = 2`. -/
theorem c10_witness :
    (0:ℚ) ≤ 80 ∧
      (0.825 * (80:ℚ) - 1/200 ≤ stabilize_with_persistence 80 2 ∧
       stabilize_with_persistence 80 2 ≤ 80 + 1/200) :=
  ⟨by norm_num, c10_stabilize_never_raises 80 2 (by norm_num)⟩

theorem compute_acceleration_replicate (now : ℚ) (rc : ℕ) (bc : BaselineCounts) :
    compute_acceleration now (List.replicate rc ⟨none, none, none, some now, none⟩) bc =
      (pyround 2 (max 0 (min 100 (50 + 25 * (((rc : ℚ) + 1) / (bc.baseline_90 + 1) - 1)))),
       if 1.35 ≤ ((rc : ℚ) + 1) / (bc.baseline_90 + 1) then "↑"
       else if ((rc : ℚ) + 1) / (bc.baseline_90 + 1) ≤ 0.75 then "↓" else "→") := by
  have hfil :
      (List.replicate rc (⟨none, none, none, some now, none⟩ : EventRec)).filter
        (fun e => match e.date with
          | some d => decide (now - 90 ≤ d)
          | none => false) =
      List.replicate rc ⟨none, none, none, some now, none⟩ := by
    apply List.filter_eq_self.mpr
    intro a ha
    rw [List.eq_of_mem_replicate ha]
    exact decide_eq_true (by linarith)
  simp only [compute_acceleration]
  rw [hfil, List.length_replicate]

/-- Claim C4: the acceleration ratio is `(recent_90 + 1) / (baseline_90 + 1)`;
the arrow is up iff the ratio is at least 1.35, down iff it is at most 0.75,
flat otherwise; `accel_raw = clamp(50 + 25*(ratio-1), 0, 100)` rounded to 2
decimals; and `recent_90 = 10`, `baseline_90 = 5` give ratio `11/6`, arrow
up, and `accel_raw = 70.83`.  (`recent_90` is realised as the number of
linked events dated within the last 90 days.) -/
theorem c4_acceleration (now : ℚ) (rc : ℕ) (b : ℚ) :
    ((compute_acceleration now (List.replicate rc ⟨none, none, none, some now, none⟩) ⟨rc, b⟩).2 = "↑"
        ↔ 1.35 ≤ ((rc : ℚ) + 1) / (b + 1)) ∧
    ((compute_acceleration now (List.replicate rc ⟨none, none, none, some now, none⟩) ⟨rc, b⟩).2 = "↓"
        ↔ ((rc : ℚ) + 1) / (b + 1) ≤ 0.75) ∧
    ((compute_acceleration now (List.replicate rc ⟨none, none, none, some now, none⟩) ⟨rc, b⟩).2 = "→"
        ↔ (0.75 < ((rc : ℚ) + 1) / (b + 1) ∧ ((rc : ℚ) + 1) / (b + 1) < 1.35)) ∧
    (compute_acceleration now (List.replicate rc ⟨none, none, none, some now, none⟩) ⟨rc, b⟩).1
        = pyround 2 (max 0 (min 100 (50 + 25 * (((rc : ℚ) + 1) / (b + 1) - 1)))) ∧
    compute_acceleration 0 (List.replicate 10 ⟨none, none, none, some 0, none⟩) ⟨10, 5⟩
        = (70.83, "↑") := by
  have h := compute_acceleration_replicate now rc ⟨rc, b⟩
  have h10 := compute_acceleration_replicate 0 10 ⟨10, 5⟩
  rw [h]
  have harr : ∀ q : ℚ,
      ((if 1.35 ≤ q then "↑" else if q ≤ 0.75 then "↓" else "→") = "↑" ↔ 1.35 ≤ q) ∧
      ((if 1.35 ≤ q then "↑" else if q ≤ 0.75 then "↓" else "→") = "↓" ↔ q ≤ 0.75) ∧
      ((if 1.35 ≤ q then "↑" else if q ≤ 0.75 then "↓" else "→") = "→" ↔ (0.75 < q ∧ q < 1.35)) := by
    intro q
    by_cases h1 : (1.35 : ℚ) ≤ q
    · have h2 : ¬ q ≤ (0.75 : ℚ) := by norm_num at h1 ⊢; linarith
      simp only [if_pos h1]
      refine ⟨by simp [h1], by simp [h2], ?_⟩
      constructor
      · intro hc; exact absurd hc (by decide)
      · intro hc; exact absurd h1 (not_le.mpr hc.2)
    · by_cases h2 : q ≤ (0.75 : ℚ)
      · simp only [if_neg h1, if_pos h2]
        refine ⟨by simp [h1], by simp [h2], ?_⟩
        constructor
        · intro hc; exact absurd hc (by decide)
        · intro hc; exact absurd h2 (not_le.mpr hc.1)
      · simp only [if_neg h1, if_neg h2]
        refine ⟨by simp [h1], by simp [h2], ?_⟩
        simp only [eq_self_iff_true, true_iff]
        exact ⟨lt_of_not_le h2, lt_of_not_le h1⟩
  refine ⟨(harr _).1, (harr _).2.1, (harr _).2.2, rfl, ?_⟩
  rw [h10]
  dsimp only
  have hx : 50 + 25 * ((((10:ℕ):ℚ) + 1) / ((5:ℚ) + 1) - 1) = 425/6 := by push_cast; norm_num
  rw [hx, min_eq_right (by norm_num : (425/6 : ℚ) ≤ 100), max_eq_right (by norm_num : (0:ℚ) ≤ 425/6)]
  rw [if_pos (by push_cast; norm_num : (1.35 : ℚ) ≤ (((10:ℕ):ℚ) + 1) / ((5:ℚ) + 1))]
  have hpr : pyround 2 (425/6) = 70.83 := by norm_num [pyround, roundHalfEven]
  rw [hpr]

theorem bucketStep_sum (b : BucketCounts) (e : EventRec) :
    (bucketStep b e).research + (bucketStep b e).capital + (bucketStep b e).reg +
      (bucketStep b e).infra + (bucketStep b e).cross =
    b.research + b.capital + b.reg + b.infra + b.cross + 1 := by
  simp only [bucketStep]
  split_ifs <;> simp <;> omega

theorem bucketCounts_go_sum (events : List EventRec) :
    ∀ b : BucketCounts,
      (events.foldl bucketStep b).research + (events.foldl bucketStep b).capital +
        (events.foldl bucketStep b).reg + (events.foldl bucketStep b).infra +
        (events.foldl bucketStep b).cross =
      b.research + b.capital + b.reg + b.infra + b.cross + events.length := by
  induction events with
  | nil => intro b; simp
  | cons e rest ih =>
    intro b
    simp only [List.foldl_cons, List.length_cons]
    rw [ih (bucketStep b e), bucketStep_sum]
    omega

theorem bucketCounts_sum (events : List EventRec) :
    (bucketCounts events).research + (bucketCounts events).capital +
      (bucketCounts events).reg + (bucketCounts events).infra +
      (bucketCounts events).cross = events.length := by
  unfold bucketCounts
  rw [bucketCounts_go_sum]
  simp

/-- Claim C5: `compute_component_scores` assigns each linked event to
exactly one of the five buckets (the five bucket counts always add up to
the number of events; unmapped and `cross` signal types land in
`cross_adoption`), each component is the share `100 * count / n` rounded to
2 decimals, and `compute_impact` is the fixed-weight sum
`0.20/0.25/0.25/0.20/0.10` rounded to 2 decimals, so components
`(research=100, others=0)` give impact `20.00`. -/
theorem c5_components_impact :
    (∀ events : List EventRec,
      (bucketCounts events).research + (bucketCounts events).capital +
        (bucketCounts events).reg + (bucketCounts events).infra +
        (bucketCounts events).cross = events.length) ∧
    (∀ events : List EventRec, events ≠ [] →
      compute_component_scores events =
        ⟨pyround 2 (100 * ((bucketCounts events).research / (events.length : ℚ))),
         pyround 2 (100 * ((bucketCounts events).capital / (events.length : ℚ))),
         pyround 2 (100 * ((bucketCounts events).reg / (events.length : ℚ))),
         pyround 2 (100 * ((bucketCounts events).infra / (events.length : ℚ))),
         pyround 2 (100 * ((bucketCounts events).cross / (events.length : ℚ)))⟩) ∧
    bucketCounts [⟨some "cross", none, none, none, none⟩,
                  ⟨some "Unmapped-Type", none, none, none, none⟩] = ⟨0, 0, 0, 0, 2⟩ ∧
    compute_impact ⟨100, 0, 0, 0, 0⟩ = 20 := by
  refine ⟨bucketCounts_sum, ?_, by decide, ?_⟩
  · intro events hne
    have hlen : 1 ≤ events.length := List.length_pos.mpr hne
    have hmax : events.length.max 1 = events.length := Nat.max_eq_left hlen
    unfold compute_component_scores
    rw [hmax]
  · unfold compute_impact
    norm_num [pyround, roundHalfEven]

/-- Witness for C5 at a one-event list (hypothesis `events ≠ []`). -/
theorem c5_witness :
    ([(⟨some "research", none, none, none, none⟩ : EventRec)] ≠ []) ∧
    compute_component_scores [⟨some "research", none, none, none, none⟩] =
      ⟨pyround 2 (100 * ((bucketCounts [(⟨some "research", none, none, none, none⟩ : EventRec)]).research /
          (([(⟨some "research", none, none, none, none⟩ : EventRec)].length : ℕ) : ℚ))),
       pyround 2 (100 * ((bucketCounts [(⟨some "research", none, none, none, none⟩ : EventRec)]).capital /
          (([(⟨some "research", none, none, none, none⟩ : EventRec)].length : ℕ) : ℚ))),
       pyround 2 (100 * ((bucketCounts [(⟨some "research", none, none, none, none⟩ : EventRec)]).reg /
          (([(⟨some "research", none, none, none, none⟩ : EventRec)].length : ℕ) : ℚ))),
       pyround 2 (100 * ((bucketCounts [(⟨some "research", none, none, none, none⟩ : EventRec)]).infra /
          (([(⟨some "research", none, none, none, none⟩ : EventRec)].length : ℕ) : ℚ))),
       pyround 2 (100 * ((bucketCounts [(⟨some "research", none, none, none, none⟩ : EventRec)]).cross /
          (([(⟨some "research", none, none, none, none⟩ : EventRec)].length : ℕ) : ℚ)))⟩ :=
  ⟨by simp, c5_components_impact.2.1 [⟨some "research", none, none, none, none⟩] (by simp)⟩

theorem share_bounds (c n : ℕ) (hc : c ≤ n) (hn : 1 ≤ n) :
    0 ≤ pyround 2 (100 * ((c : ℚ) / n)) ∧ pyround 2 (100 * ((c : ℚ) / n)) ≤ 100 := by
  have hnq : (0:ℚ) < n := by exact_mod_cast hn
  have hdiv0 : (0:ℚ) ≤ (c : ℚ) / n := by positivity
  have hdiv1 : (c : ℚ) / n ≤ 1 := by
    rw [div_le_one hnq]
    exact_mod_cast hc
  constructor
  · have := intCast_le_pyround_of_le 2 (100 * ((c : ℚ) / n)) 0 (by push_cast; linarith)
    simpa using this
  · have := pyround_le_of_le_intCast 2 (100 * ((c : ℚ) / n)) 100 (by push_cast; linarith)
    simpa using this

theorem compute_component_scores_bounds (events : List EventRec) :
    (0 ≤ (compute_component_scores events).research_momentum ∧
      (compute_component_scores events).research_momentum ≤ 100) ∧
    (0 ≤ (compute_component_scores events).capital_momentum ∧
      (compute_component_scores events).capital_momentum ≤ 100) ∧
    (0 ≤ (compute_component_scores events).reg_momentum ∧
      (compute_component_scores events).reg_momentum ≤ 100) ∧
    (0 ≤ (compute_component_scores events).infra_deploy ∧
      (compute_component_scores events).infra_deploy ≤ 100) ∧
    (0 ≤ (compute_component_scores events).cross_adoption ∧
      (compute_component_scores events).cross_adoption ≤ 100) := by
  have hsum := bucketCounts_sum events
  have hn1 : 1 ≤ events.length.max 1 := Nat.le_max_right _ _
  have hlen : events.length ≤ events.length.max 1 := Nat.le_max_left _ _
  unfold compute_component_scores
  refine ⟨?_, ?_, ?_, ?_, ?_⟩ <;>
    exact share_bounds _ _ (by omega) hn1

theorem compute_impact_bounds (c : Components)
    (h1 : 0 ≤ c.research_momentum ∧ c.research_momentum ≤ 100)
    (h2 : 0 ≤ c.capital_momentum ∧ c.capital_momentum ≤ 100)
    (h3 : 0 ≤ c.reg_momentum ∧ c.reg_momentum ≤ 100)
    (h4 : 0 ≤ c.infra_deploy ∧ c.infra_deploy ≤ 100)
    (h5 : 0 ≤ c.cross_adoption ∧ c.cross_adoption ≤ 100) :
    0 ≤ compute_impact c ∧ compute_impact c ≤ 100 := by
  obtain ⟨h1a, h1b⟩ := h1
  obtain ⟨h2a, h2b⟩ := h2
  obtain ⟨h3a, h3b⟩ := h3
  obtain ⟨h4a, h4b⟩ := h4
  obtain ⟨h5a, h5b⟩ := h5
  unfold compute_impact
  constructor
  · have := intCast_le_pyround_of_le 2
      (0.20 * c.research_momentum + 0.25 * c.capital_momentum + 0.25 * c.reg_momentum +
        0.20 * c.infra_deploy + 0.10 * c.cross_adoption) 0 (by push_cast; nlinarith)
    simpa using this
  · have := pyround_le_of_le_intCast 2
      (0.20 * c.research_momentum + 0.25 * c.capital_momentum + 0.25 * c.reg_momentum +
        0.20 * c.infra_deploy + 0.10 * c.cross_adoption) 100 (by push_cast; nlinarith)
    simpa using this

theorem compute_confidence_bounds (events : List EventRec) :
    0 ≤ (compute_confidence events).1 ∧ (compute_confidence events).1 ≤ 100 := by
  have hsd0 : (0:ℚ) ≤ min 1 ((uniqueSources events : ℚ) / 6) :=
    le_min (by norm_num) (by positivity)
  have hsd1 : min 1 ((uniqueSources events : ℚ) / 6) ≤ 1 := min_le_left _ _
  have hts0 : (0:ℚ) ≤ (if events.length = 0 then 0
      else ((events.filter (fun e => tierOf e = 1)).length : ℚ) / events.length) := by
    split_ifs with h
    · norm_num
    · positivity
  have hts1 : (if events.length = 0 then 0
      else ((events.filter (fun e => tierOf e = 1)).length : ℚ) / events.length) ≤ 1 := by
    split_ifs with h
    · norm_num
    · have hnq : (0:ℚ) < events.length := by
        have : 0 < events.length := Nat.pos_of_ne_zero h
        exact_mod_cast this
      rw [div_le_one hnq]
      exact_mod_cast List.length_filter_le _ _
  have hv0 : (0:ℚ) ≤ min 1 ((events.length : ℚ) / 25) := le_min (by norm_num) (by positivity)
  have hv1 : min 1 ((events.length : ℚ) / 25) ≤ 1 := min_le_left _ _
  simp only [compute_confidence]
  constructor
  · have := intCast_le_pyround_of_le 2
      (100 * (0.45 * min 1 ((uniqueSources events : ℚ) / 6) +
        0.40 * (if events.length = 0 then 0
          else ((events.filter (fun e => tierOf e = 1)).length : ℚ) / events.length) +
        0.15 * min 1 ((events.length : ℚ) / 25))) 0
      (by push_cast; nlinarith)
    simpa using this
  · have := pyround_le_of_le_intCast 2
      (100 * (0.45 * min 1 ((uniqueSources events : ℚ) / 6) +
        0.40 * (if events.length = 0 then 0
          else ((events.filter (fun e => tierOf e = 1)).length : ℚ) / events.length) +
        0.15 * min 1 ((events.length : ℚ) / 25))) 100
      (by push_cast; nlinarith)
    simpa using this

theorem stabilize_mem (i p : ℚ) (h0 : 0 ≤ i) (h100 : i ≤ 100) :
    0 ≤ stabilize_with_persistence i p ∧ stabilize_with_persistence i p ≤ 100 := by
  unfold stabilize_with_persistence
  set q := max 0 (min 1 p) with hq
  have hq0 : 0 ≤ q := le_max_left _ _
  have hq1 : q ≤ 1 := max_le (by norm_num) (min_le_left _ _)
  constructor
  · have := intCast_le_pyround_of_le 2 (0.65 * i + 0.35 * i * (0.5 + 0.5 * q)) 0
      (by push_cast; nlinarith)
    simpa using this
  · have := pyround_le_of_le_intCast 2 (0.65 * i + 0.35 * i * (0.5 + 0.5 * q)) 100
      (by push_cast; nlinarith)
    simpa using this

/-- Claim C8: for every scoring pass over a movement (any event list,
baseline, history and clock), each of the five component scores lies in
`[0,100]`, `impact_score` lies in `[0,100]`, `stabilized_impact` lies in
`[0,100]`, `confidence_score` lies in `[0,100]`, and `persistence` lies in
`[0,1]`.  (Movements skipped for scoring keep the model defaults, which
also satisfy these bounds.) -/
theorem c8_score_bounds (now : ℚ) (events : List EventRec) (baseline90 : BaselineCounts)
    (history : List ℚ) :
    (0 ≤ (score_movement now events baseline90 history).research_momentum ∧
      (score_movement now events baseline90 history).research_momentum ≤ 100) ∧
    (0 ≤ (score_movement now events baseline90 history).capital_momentum ∧
      (score_movement now events baseline90 history).capital_momentum ≤ 100) ∧
    (0 ≤ (score_movement now events baseline90 history).reg_momentum ∧
      (score_movement now events baseline90 history).reg_momentum ≤ 100) ∧
    (0 ≤ (score_movement now events baseline90 history).infra_deploy ∧
      (score_movement now events baseline90 history).infra_deploy ≤ 100) ∧
    (0 ≤ (score_movement now events baseline90 history).cross_adoption ∧
      (score_movement now events baseline90 history).cross_adoption ≤ 100) ∧
    (0 ≤ (score_movement now events baseline90 history).impact_score ∧
      (score_movement now events baseline90 history).impact_score ≤ 100) ∧
    (0 ≤ (score_movement now events baseline90 history).stabilized_impact ∧
      (score_movement now events baseline90 history).stabilized_impact ≤ 100) ∧
    (0 ≤ (score_movement now events baseline90 history).confidence_score ∧
      (score_movement now events baseline90 history).confidence_score ≤ 100) ∧
    (0 ≤ (score_movement now events baseline90 history).persistence ∧
      (score_movement now events baseline90 history).persistence ≤ 1) := by
  obtain ⟨hc1, hc2, hc3, hc4, hc5⟩ := compute_component_scores_bounds events
  have himp := compute_impact_bounds (compute_component_scores events) hc1 hc2 hc3 hc4 hc5
  have hconf := compute_confidence_bounds events
  have hpers : (0 : ℚ) ≤ (if history.isEmpty then 0
        else (((history.drop (history.length - 4)).filter (fun x => decide (50 ≤ x))).length : ℚ) / 4) ∧
      (if history.isEmpty then (0:ℚ)
        else (((history.drop (history.length - 4)).filter (fun x => decide (50 ≤ x))).length : ℚ) / 4) ≤ 1 := by
    split_ifs with h
    · norm_num
    · have hhits : ((history.drop (history.length - 4)).filter (fun x => decide (50 ≤ x))).length ≤ 4 := by
        have h1 := List.length_filter_le (fun x => decide ((50:ℚ) ≤ x)) (history.drop (history.length - 4))
        have h2 : (history.drop (history.length - 4)).length = history.length - (history.length - 4) :=
          List.length_drop _ _
        omega
      constructor
      · positivity
      · rw [div_le_one (by norm_num : (0:ℚ) < 4)]
        exact_mod_cast hhits
  have hstab := stabilize_mem (compute_impact (compute_component_scores events))
    (if history.isEmpty then 0
      else (((history.drop (history.length - 4)).filter (fun x => decide (50 ≤ x))).length : ℚ) / 4)
    himp.1 himp.2
  have hp3a := intCast_le_pyround_of_le 3
    (if history.isEmpty then 0
      else (((history.drop (history.length - 4)).filter (fun x => decide (50 ≤ x))).length : ℚ) / 4)
    0 (by exact_mod_cast hpers.1)
  have hp3b := pyround_le_of_le_intCast 3
    (if history.isEmpty then 0
      else (((history.drop (history.length - 4)).filter (fun x => decide (50 ≤ x))).length : ℚ) / 4)
    1 (by exact_mod_cast hpers.2)
  refine ⟨⟨hc1.1, hc1.2⟩, ⟨hc2.1, hc2.2⟩, ⟨hc3.1, hc3.2⟩, ⟨hc4.1, hc4.2⟩, ⟨hc5.1, hc5.2⟩,
    ⟨himp.1, himp.2⟩, ⟨hstab.1, hstab.2⟩, ⟨hconf.1, hconf.2⟩, ⟨?_, ?_⟩⟩
  · exact hp3a
  · exact hp3b

/-- Claim C6: `aggregate_themes` returns the theme list sorted by
`theme_score` descending, and on one theme whose movements have stabilized
impacts `[90,80,70,60,50,40,30,20,10,0]` the theme score is
`0.6*avg(top3) + 0.4*avg(next7) = 0.6*80 + 0.4*30 = 60.0`. -/
theorem c6_theme_rollup :
    (∀ movements : List MovementRow,
      (aggregate_themes movements).Pairwise (fun a b => b.theme_score ≤ a.theme_score)) ∧
    (aggregate_themes
        [⟨1, "T", 90, 50, "→"⟩, ⟨2, "T", 80, 50, "→"⟩, ⟨3, "T", 70, 50, "→"⟩,
         ⟨4, "T", 60, 50, "→"⟩, ⟨5, "T", 50, 50, "→"⟩, ⟨6, "T", 40, 50, "→"⟩,
         ⟨7, "T", 30, 50, "→"⟩, ⟨8, "T", 20, 50, "→"⟩, ⟨9, "T", 10, 50, "→"⟩,
         ⟨10, "T", 0, 50, "→"⟩]).map (fun t => (t.theme, t.theme_score)) = [("T", 60)] := by
  constructor
  · intro movements
    simp only [aggregate_themes]
    exact sorted_sortByDesc _ _
  · norm_num [aggregate_themes, themeRow, sortByDesc, insertDesc, avgStabilized,
      pickArrow, arrowBetter, arrowCount, arrowOrder, pyround, roundHalfEven]

/-- Claim C1 (failing half): `aggregate_themes` compares the
stabilized-impact-weighted average of `confidence_score` — a value on the
0..100 scale — against the cutoffs `0.70`/`0.45`, so a theme whose single
movement has `confidence_score = 45` (weighted confidence 45) is labelled
High, where the claim requires the movement-level cutoffs (high at 70,
medium at 45) and hence the label medium. -/
theorem c1_theme_label_scale_bug :
    (aggregate_themes [⟨1, "T", 50, 45, "→"⟩]).map (fun t => t.confidence_label) = ["High"] := by
  norm_num [aggregate_themes, themeRow, sortByDesc, insertDesc, avgStabilized,
    pickArrow, arrowBetter, arrowCount, arrowOrder, pyround, roundHalfEven]

theorem upsertText_filter (qid es ds : String) (texts : List TextSnapshotRow)
    (h : (texts.filter (fun t => t.quarter_id = qid)).length ≤ 1) :
    (upsertText qid es ds texts).filter (fun t => t.quarter_id = qid) = [⟨qid, es, ds⟩] := by
  induction texts with
  | nil => simp [upsertText]
  | cons t ts ih =>
    by_cases hq : t.quarter_id = qid
    · have hts : ts.filter (fun t => t.quarter_id = qid) = [] := by
        rw [List.filter_cons] at h
        simp only [hq, decide_True, if_true] at h
        have : (ts.filter (fun t => t.quarter_id = qid)).length = 0 := by
          simp only [List.length_cons] at h
          omega
        exact List.length_eq_zero.mp this
      simp [upsertText, hq, List.filter_cons, hts]
    · have hh : (ts.filter (fun t => t.quarter_id = qid)).length ≤ 1 := by
        rw [List.filter_cons] at h
        simpa [hq] using h
      simp [upsertText, hq, List.filter_cons, ih hh]

/-- Claim C9: running the snapshot operation twice within the same quarter
leaves exactly one `TextSnapshot` row for that quarter id, holding the
content of the latest call, while each call appends one `ThemeSnapshot`
row per current theme and one `MovementSnapshot` row per current movement;
the quarter id is `{year}Q{q}` with `q ∈ 1..4` derived from the current UTC
date. -/
theorem c9_snapshot_upsert (year month : ℕ) (hm : 1 ≤ month ∧ month ≤ 12)
    (themes1 themes2 : List ThemeOut) (es1 ds1 es2 ds2 : String)
    (movs1 movs2 : List MovementDbRow) (store : SnapStore)
    (h1 : (store.texts.filter (fun t => t.quarter_id = quarter_id_for year month)).length ≤ 1) :
    ((create_snapshot year month themes2 es2 ds2 movs2
        (create_snapshot year month themes1 es1 ds1 movs1 store).1).1.texts.filter
          (fun t => t.quarter_id = quarter_id_for year month))
      = [⟨quarter_id_for year month, es2, ds2⟩] ∧
    (create_snapshot year month themes1 es1 ds1 movs1 store).1.themes.length
      = store.themes.length + themes1.length ∧
    (create_snapshot year month themes2 es2 ds2 movs2
        (create_snapshot year month themes1 es1 ds1 movs1 store).1).1.themes.length
      = store.themes.length + themes1.length + themes2.length ∧
    (create_snapshot year month themes1 es1 ds1 movs1 store).1.movs.length
      = store.movs.length + movs1.length ∧
    (create_snapshot year month themes2 es2 ds2 movs2
        (create_snapshot year month themes1 es1 ds1 movs1 store).1).1.movs.length
      = store.movs.length + movs1.length + movs2.length ∧
    (create_snapshot year month themes1 es1 ds1 movs1 store).2 = quarter_id_for year month ∧
    1 ≤ quarter_of_month month ∧ quarter_of_month month ≤ 4 ∧
    quarter_id_for year month = toString year ++ "Q" ++ toString (quarter_of_month month) := by
  have hstep1 : (create_snapshot year month themes1 es1 ds1 movs1 store).1.texts
      = upsertText (quarter_id_for year month) es1 ds1 store.texts := rfl
  have hfil1 := upsertText_filter (quarter_id_for year month) es1 ds1 store.texts h1
  have hlen1 : ((create_snapshot year month themes1 es1 ds1 movs1 store).1.texts.filter
      (fun t => t.quarter_id = quarter_id_for year month)).length ≤ 1 := by
    rw [hstep1, hfil1]
    norm_num
  have hfil2 := upsertText_filter (quarter_id_for year month) es2 ds2
    (create_snapshot year month themes1 es1 ds1 movs1 store).1.texts hlen1
  refine ⟨hfil2, by simp [create_snapshot], by simp [create_snapshot]; omega,
    by simp [create_snapshot], by simp [create_snapshot]; omega, rfl, ?_, ?_, rfl⟩
  · unfold quarter_of_month
    omega
  · unfold quarter_of_month
    omega

/-- Witness for C9 at October 2026, two snapshot calls on an empty store. -/
theorem c9_witness :
    ((1 ≤ 10 ∧ 10 ≤ 12) ∧
      ((SnapStore.mk [] [] []).texts.filter
        (fun t => t.quarter_id = quarter_id_for 2026 10)).length ≤ 1) ∧
    (((create_snapshot 2026 10 [] "e2" "d2" []
        (create_snapshot 2026 10 [] "e1" "d1" [] (SnapStore.mk [] [] [])).1).1.texts.filter
          (fun t => t.quarter_id = quarter_id_for 2026 10))
      = [⟨quarter_id_for 2026 10, "e2", "d2"⟩] ∧
    (create_snapshot 2026 10 [] "e1" "d1" [] (SnapStore.mk [] [] [])).1.themes.length
      = (SnapStore.mk [] [] []).themes.length + ([] : List ThemeOut).length ∧
    (create_snapshot 2026 10 [] "e2" "d2" []
        (create_snapshot 2026 10 [] "e1" "d1" [] (SnapStore.mk [] [] [])).1).1.themes.length
      = (SnapStore.mk [] [] []).themes.length + ([] : List ThemeOut).length + ([] : List ThemeOut).length ∧
    (create_snapshot 2026 10 [] "e1" "d1" [] (SnapStore.mk [] [] [])).1.movs.length
      = (SnapStore.mk [] [] []).movs.length + ([] : List MovementDbRow).length ∧
    (create_snapshot 2026 10 [] "e2" "d2" []
        (create_snapshot 2026 10 [] "e1" "d1" [] (SnapStore.mk [] [] [])).1).1.movs.length
      = (SnapStore.mk [] [] []).movs.length + ([] : List MovementDbRow).length + ([] : List MovementDbRow).length ∧
    (create_snapshot 2026 10 [] "e1" "d1" [] (SnapStore.mk [] [] [])).2 = quarter_id_for 2026 10 ∧
    1 ≤ quarter_of_month 10 ∧ quarter_of_month 10 ≤ 4 ∧
    quarter_id_for 2026 10 = toString 2026 ++ "Q" ++ toString (quarter_of_month 10)) :=
  ⟨⟨⟨by norm_num, by norm_num⟩, by simp⟩,
    c9_snapshot_upsert 2026 10 ⟨by norm_num, by norm_num⟩ [] [] "e1" "d1" "e2" "d2" [] []
      (SnapStore.mk [] [] []) (by simp)⟩

/-- Counterexample to claim C3: two records that differ only in
time-of-day within the same UTC day receive different `event_uid`s,
because `canonical_uid` hashes the full `isoformat()` timestamp rather
than the date truncated to day. -/
theorem c3_counterexample :
    canonical_uid "src" "https://x.example/a" "Report" "2024-03-05T09:00:00+00:00"
      ≠ canonical_uid "src" "https://x.example/a" "Report" "2024-03-05T17:30:00+00:00" := by
  decide

/-- Claim C3 as amended: `event_uid` is a content hash over the source
name, the URL and title trimmed of surrounding whitespace (case preserved,
no day truncation of the date), so records differing only in surrounding
whitespace of URL or title receive the same `event_uid`, while records
differing in letter case, or in time-of-day within the same day, receive
different `event_uid`s. -/
theorem c3_amended_uid :
    (∀ s u u2 t t2 d : String, stripStr u = stripStr u2 → stripStr t = stripStr t2 →
      canonical_uid s u t d = canonical_uid s u2 t2 d) ∧
    canonical_uid "src" "https://x.example/a" "Title" "2024-03-05T10:00:00+00:00"
      ≠ canonical_uid "src" "https://x.example/a" "title" "2024-03-05T10:00:00+00:00" ∧
    canonical_uid "src" "https://x.example/a" "Title" "2024-03-05T10:00:00+00:00"
      ≠ canonical_uid "src" "https://x.example/a" "Title" "2024-03-05T11:00:00+00:00" := by
  refine ⟨?_, by decide, by decide⟩
  intro s u u2 t t2 d hu ht
  unfold canonical_uid
  rw [hu, ht]

/-- Witness for the amended C3 at concrete whitespace-differing inputs. -/
theorem c3_amended_witness :
    (stripStr "  https://x.example/a " = stripStr "https://x.example/a" ∧
      stripStr " Title" = stripStr "Title") ∧
    canonical_uid "src" "  https://x.example/a " " Title" "2024-03-05T10:00:00+00:00"
      = canonical_uid "src" "https://x.example/a" "Title" "2024-03-05T10:00:00+00:00" :=
  ⟨⟨by decide, by decide⟩,
    c3_amended_uid.1 "src" "  https://x.example/a " "https://x.example/a" " Title" "Title"
      "2024-03-05T10:00:00+00:00" (by decide) (by decide)⟩

def c2InitialStore : ClusterStore :=
  ⟨[⟨"old-uid", "Old movement", "T"⟩], [("old-uid", "e0")]⟩

def c2Events : List DbEvent :=
  [⟨"uidA", "Alpha", "sA", 1⟩, ⟨"uidB", "Beta", "sB", 2⟩]

/-- Claim C2 is violated by the code: `build_movements` commits the
deletion of the whole Movement/link set as its own transaction and then
commits once per new movement (and once more per link batch).  On a store
holding one pre-rebuild movement and a rebuild input of two events in two
clusters, the committed-state sequence is: an empty store, then stores
with only part of the new movement set (movement counts 0,1,1,2,2).  The
pre-rebuild movement is absent from every committed state, so a failure
after the first commit leaves the store without the pre-rebuild Movement
set, contradicting the claimed atomicity. -/
theorem c2_rebuild_not_atomic :
    (build_movements c2Events [0, 1] c2InitialStore).2 = 2 ∧
    (build_movements c2Events [0, 1] c2InitialStore).1.head? = some ⟨[], []⟩ ∧
    ((build_movements c2Events [0, 1] c2InitialStore).1.map
      (fun st => st.movements.length)) = [0, 1, 1, 2, 2] ∧
    (∀ st ∈ (build_movements c2Events [0, 1] c2InitialStore).1,
      (⟨"old-uid", "Old movement", "T"⟩ : MovementRec) ∉ st.movements) := by
  decide

theorem dedupGo_uids (items : List RawItem) :
    ∀ seen : List String,
      ((dedupGo seen items).map itemUid).Nodup ∧
      ∀ u ∈ (dedupGo seen items).map itemUid, u ∉ seen := by
  induction items with
  | nil => intro seen; simp [dedupGo]
  | cons it rest ih =>
    intro seen
    by_cases hmem : dedupUid it ∈ seen
    · simpa [dedupGo, hmem] using ih seen
    · obtain ⟨ihnd, ihout⟩ := ih (dedupUid it :: seen)
      simp only [dedupGo, if_neg hmem, List.map_cons, List.nodup_cons]
      have hhead : itemUid { it with event_uid := some (dedupUid it) } = dedupUid it := rfl
      rw [hhead]
      refine ⟨⟨?_, ihnd⟩, ?_⟩
      · intro hin
        exact (ihout _ hin) (List.mem_cons_self _ _)
      · intro u hu
        rcases List.mem_cons.mp hu with rfl | hu
        · exact hmem
        · intro hseen
          exact (ihout u hu) (List.mem_cons_of_mem _ hseen)

theorem dedup_items_uids_nodup (items : List RawItem) :
    ((dedup_items items).map itemUid).Nodup :=
  (dedupGo_uids items []).1

theorem chunkedAux_flatten (fuel : ℕ) :
    ∀ l : List RawItem, l.length ≤ fuel → (chunkedAux fuel l).flatten = l := by
  induction fuel with
  | zero =>
    intro l hl
    have : l = [] := List.length_eq_zero.mp (Nat.le_zero.mp hl)
    subst this
    simp [chunkedAux]
  | succ fuel ih =>
    intro l hl
    match l with
    | [] => simp [chunkedAux]
    | x :: xs =>
      simp only [chunkedAux, List.flatten_cons]
      rw [ih ((x :: xs).drop 250)
        (by rw [List.length_drop]; simp only [List.length_cons] at hl ⊢; omega)]
      exact List.take_append_drop _ _

theorem chunked250_flatten (l : List RawItem) : (chunked250 l).flatten = l :=
  chunkedAux_flatten l.length l le_rfl

theorem upsertBatch_eq (s : EventStore) (n : ℕ) (b : List RawItem) :
    upsertBatch (s, n) b =
      ({ events := s.events ++ (b.filter (fun it => ¬ itemUid it ∈ storeUids s)).map toEventRow,
         refs := s.refs ++ (b.filter (fun it => ¬ itemUid it ∈ storeUids s)).map itemUid },
       n + (b.filter (fun it => ¬ itemUid it ∈ storeUids s)).length) := by
  have hfc : b.filter (fun it => ¬ itemUid it ∈ (storeUids s).filter (fun u => u ∈ b.map itemUid))
      = b.filter (fun it => ¬ itemUid it ∈ storeUids s) := by
    apply List.filter_congr
    intro it hit
    have : (itemUid it ∈ (storeUids s).filter (fun u => u ∈ b.map itemUid))
        ↔ itemUid it ∈ storeUids s := by
      constructor
      · intro hm
        exact (List.mem_filter.mp hm).1
      · intro hm
        exact List.mem_filter.mpr ⟨hm, by simpa using List.mem_map_of_mem itemUid hit⟩
    exact decide_eq_decide.mpr (not_congr this)
  simp only [upsertBatch, hfc]
  by_cases he : (b.filter (fun it => ¬ itemUid it ∈ storeUids s)).isEmpty
  · have hnil : b.filter (fun it => ¬ itemUid it ∈ storeUids s) = [] :=
      List.isEmpty_iff.mp he
    rw [if_pos he, hnil]
    simp
  · rw [if_neg he]

theorem storeUids_upsertBatch (s : EventStore) (n : ℕ) (b : List RawItem) :
    storeUids ((upsertBatch (s, n) b).1)
      = storeUids s ++ (b.filter (fun it => ¬ itemUid it ∈ storeUids s)).map itemUid := by
  rw [upsertBatch_eq]
  simp only [storeUids, List.map_append, List.map_map]
  rfl

theorem foldl_upsert_mono (bs : List (List RawItem)) :
    ∀ (s : EventStore) (n : ℕ) (u : String), u ∈ storeUids s →
      u ∈ storeUids ((bs.foldl upsertBatch (s, n)).1) := by
  induction bs with
  | nil => intro s n u hu; simpa using hu
  | cons b rest ih =>
    intro s n u hu
    simp only [List.foldl_cons]
    exact ih (upsertBatch (s, n) b).1 (upsertBatch (s, n) b).2 u
      (by rw [storeUids_upsertBatch]; exact List.mem_append_left _ hu)

theorem foldl_upsert_present (bs : List (List RawItem)) :
    ∀ (s : EventStore) (n : ℕ) (it : RawItem), it ∈ bs.flatten →
      itemUid it ∈ storeUids ((bs.foldl upsertBatch (s, n)).1) := by
  induction bs with
  | nil => intro s n it h; simp at h
  | cons b rest ih =>
    intro s n it hit
    simp only [List.flatten_cons, List.mem_append] at hit
    simp only [List.foldl_cons]
    rcases hit with hb | hrest
    · by_cases hm : itemUid it ∈ storeUids s
      · exact foldl_upsert_mono rest (upsertBatch (s, n) b).1 (upsertBatch (s, n) b).2 _
          (by rw [storeUids_upsertBatch]; exact List.mem_append_left _ hm)
      · have hmem : itemUid it ∈ (b.filter (fun x => ¬ itemUid x ∈ storeUids s)).map itemUid :=
          List.mem_map_of_mem _ (List.mem_filter.mpr ⟨hb, by simpa using hm⟩)
        exact foldl_upsert_mono rest (upsertBatch (s, n) b).1 (upsertBatch (s, n) b).2 _
          (by rw [storeUids_upsertBatch]; exact List.mem_append_right _ hmem)
    · exact ih (upsertBatch (s, n) b).1 (upsertBatch (s, n) b).2 it hrest

theorem foldl_upsert_noop (bs : List (List RawItem)) :
    ∀ (s : EventStore) (n : ℕ), (∀ it ∈ bs.flatten, itemUid it ∈ storeUids s) →
      bs.foldl upsertBatch (s, n) = (s, n) := by
  induction bs with
  | nil => intro s n _; rfl
  | cons b rest ih =>
    intro s n hall
    simp only [List.foldl_cons]
    have hb : upsertBatch (s, n) b = (s, n) := by
      rw [upsertBatch_eq]
      have hnil : b.filter (fun it => ¬ itemUid it ∈ storeUids s) = [] := by
        rw [List.filter_eq_nil]
        intro it hit
        simpa using hall it (by simp only [List.flatten_cons, List.mem_append]; exact Or.inl hit)
      rw [hnil]
      simp
    rw [hb]
    exact ih s n (fun it hit =>
      hall it (by simp only [List.flatten_cons, List.mem_append]; exact Or.inr hit))

theorem foldl_upsert_events (bs : List (List RawItem)) :
    ∀ (s : EventStore) (n : ℕ),
      ∃ added, ((bs.foldl upsertBatch (s, n)).1).events = s.events ++ added := by
  induction bs with
  | nil => intro s n; exact ⟨[], by simp⟩
  | cons b rest ih =>
    intro s n
    simp only [List.foldl_cons]
    obtain ⟨added, hadded⟩ := ih (upsertBatch (s, n) b).1 (upsertBatch (s, n) b).2
    refine ⟨(b.filter (fun it => ¬ itemUid it ∈ storeUids s)).map toEventRow ++ added, ?_⟩
    have heta : rest.foldl upsertBatch (upsertBatch (s, n) b)
        = rest.foldl upsertBatch ((upsertBatch (s, n) b).1, (upsertBatch (s, n) b).2) := rfl
    rw [heta, hadded]
    have hev : (upsertBatch (s, n) b).1.events
        = s.events ++ (b.filter (fun it => ¬ itemUid it ∈ storeUids s)).map toEventRow := by
      rw [upsertBatch_eq]
    rw [hev, List.append_assoc]

theorem foldl_upsert_nodup (bs : List (List RawItem)) :
    ∀ (s : EventStore) (n : ℕ), (storeUids s).Nodup → ((bs.flatten).map itemUid).Nodup →
      (storeUids ((bs.foldl upsertBatch (s, n)).1)).Nodup := by
  induction bs with
  | nil => intro s n hs _; simpa using hs
  | cons b rest ih =>
    intro s n hs hflat
    simp only [List.flatten_cons, List.map_append] at hflat
    rw [List.nodup_append] at hflat
    obtain ⟨hb, hrest, hdisj⟩ := hflat
    simp only [List.foldl_cons]
    apply ih (upsertBatch (s, n) b).1 (upsertBatch (s, n) b).2 ?_ hrest
    rw [storeUids_upsertBatch, List.nodup_append]
    refine ⟨hs, ?_, ?_⟩
    · have hsub : ((b.filter (fun it => ¬ itemUid it ∈ storeUids s)).map itemUid).Sublist
          (b.map itemUid) := (List.filter_sublist _).map _
      exact hb.sublist hsub
    · intro u hu hmem
      obtain ⟨it, hitf, hituid⟩ := List.mem_map.mp hmem
      have hnotin := (List.mem_filter.mp hitf).2
      rw [hituid] at hnotin
      simp at hnotin
      exact hnotin hu

/-- Claim C7: running `dedup_items` followed by `upsert_events` twice on
the same raw records (over any store whose event uids are distinct) leaves
the store with pairwise-distinct event uids (one Event per distinct
`event_uid`), only ever appends new Event rows (existing rows are
untouched — the existing-uid branch is a pure no-op, a special case of the
claimed no-op-or-backfill), and the second run changes nothing and reports
an inserted count of 0. -/
theorem c7_ingest_idempotent (items : List RawItem) (store : EventStore)
    (h : (storeUids store).Nodup) :
    (storeUids (upsert_events (dedup_items items) store).1).Nodup ∧
    (∃ added, (upsert_events (dedup_items items) store).1.events = store.events ++ added) ∧
    upsert_events (dedup_items items) (upsert_events (dedup_items items) store).1
      = ((upsert_events (dedup_items items) store).1, 0) := by
  have hnd : ((dedup_items items).map itemUid).Nodup := dedup_items_uids_nodup items
  by_cases hde : (dedup_items items).isEmpty
  · have hdnil : dedup_items items = [] := List.isEmpty_iff.mp hde
    rw [hdnil]
    refine ⟨by simpa [upsert_events] using h, ⟨[], by simp [upsert_events]⟩, by simp [upsert_events]⟩
  · have h1 : (storeUids (upsert_events (dedup_items items) store).1).Nodup := by
      unfold upsert_events
      rw [if_neg hde]
      exact foldl_upsert_nodup (chunked250 (dedup_items items)) store 0 h
        (by rw [chunked250_flatten]; exact hnd)
    have h2 : ∃ added, (upsert_events (dedup_items items) store).1.events
        = store.events ++ added := by
      unfold upsert_events
      rw [if_neg hde]
      exact foldl_upsert_events (chunked250 (dedup_items items)) store 0
    have h3 : ∀ it ∈ dedup_items items,
        itemUid it ∈ storeUids (upsert_events (dedup_items items) store).1 := by
      intro it hit
      unfold upsert_events
      rw [if_neg hde]
      exact foldl_upsert_present (chunked250 (dedup_items items)) store 0 it
        (by rw [chunked250_flatten]; exact hit)
    refine ⟨h1, h2, ?_⟩
    unfold upsert_events
    rw [if_neg hde]
    exact foldl_upsert_noop (chunked250 (dedup_items items))
      (upsert_events (dedup_items items) store).1 0
      (by rw [chunked250_flatten]; exact h3)

/-- Witness for C7 at two concrete records over the empty store. -/
theorem c7_witness :
    (storeUids ⟨[], []⟩).Nodup ∧
    ((storeUids (upsert_events (dedup_items
        [⟨some "u1", some "src", some 1, some "research", some "http://a", some "A", some "sA", none, some "2024-01-01T00:00:00+00:00"⟩,
         ⟨some "u2", some "src", some 1, some "research", some "http://b", some "B", some "sB", none, some "2024-01-02T00:00:00+00:00"⟩])
        ⟨[], []⟩).1).Nodup ∧
     (∃ added, (upsert_events (dedup_items
        [⟨some "u1", some "src", some 1, some "research", some "http://a", some "A", some "sA", none, some "2024-01-01T00:00:00+00:00"⟩,
         ⟨some "u2", some "src", some 1, some "research", some "http://b", some "B", some "sB", none, some "2024-01-02T00:00:00+00:00"⟩])
        ⟨[], []⟩).1.events = (EventStore.mk [] []).events ++ added) ∧
     upsert_events (dedup_items
        [⟨some "u1", some "src", some 1, some "research", some "http://a", some "A", some "sA", none, some "2024-01-01T00:00:00+00:00"⟩,
         ⟨some "u2", some "src", some 1, some "research", some "http://b", some "B", some "sB", none, some "2024-01-02T00:00:00+00:00"⟩])
        (upsert_events (dedup_items
        [⟨some "u1", some "src", some 1, some "research", some "http://a", some "A", some "sA", none, some "2024-01-01T00:00:00+00:00"⟩,
         ⟨some "u2", some "src", some 1, some "research", some "http://b", some "B", some "sB", none, some "2024-01-02T00:00:00+00:00"⟩])
        ⟨[], []⟩).1
      = ((upsert_events (dedup_items
        [⟨some "u1", some "src", some 1, some "research", some "http://a", some "A", some "sA", none, some "2024-01-01T00:00:00+00:00"⟩,
         ⟨some "u2", some "src", some 1, some "research", some "http://b", some "B", some "sB", none, some "2024-01-02T00:00:00+00:00"⟩])
        ⟨[], []⟩).1, 0)) :=
  ⟨by simp [storeUids],
    c7_ingest_idempotent
      [⟨some "u1", some "src", some 1, some "research", some "http://a", some "A", some "sA", none, some "2024-01-01T00:00:00+00:00"⟩,
       ⟨some "u2", some "src", some 1, some "research", some "http://b", some "B", some "sB", none, some "2024-01-02T00:00:00+00:00"⟩]
      ⟨[], []⟩ (by simp [storeUids])⟩
